import Mathlib

/-!
# Verification of `fjson2csv` (Go) against its specification

Shallow embedding of the core converter in `fjson2csv.go`:

* JSON scalar values (`JValue`), records decoded from JSON objects
  (association lists, mirroring Go's `map[string]interface{}` where key
  lookup and per-key iteration are all that is observed),
* `toString` (value-to-text conversion, `strconv.FormatInt(int64(f), 10)`
  for numbers: truncation toward zero, bounded to the int64 range),
* the key frequency table (`extractKeys` / `bufferData` callbacks),
* the key sorter (`converter.Less`: descending frequency, ties broken by
  `sorted[j] > sorted[i]`, i.e. ascending lexicographic),
* the record emitters (`writeRecord` and the inlined loop of
  `BufferedConvert`, which are textually identical in the source),
* `WalkJsonList`, `UnbufferedConvert`, `BufferedConvert`.

The byte source is modelled by the trace it produces through Go's
`encoding/json.Decoder` as observed by `WalkJsonList` (first `Token()`,
then a `More()`/`Decode()` loop, a closing `Token()`, and a `Seek`):
each concrete input string used by the claims is translated to its trace,
with the derivation recorded in a comment.  Go panics (failed type
assertions, out-of-range slice indexing) are modelled by an explicit
`panicked` outcome.  The sink is a perfect in-memory buffer (writes never
fail), so `errWriter` never enters its error state and output is the
accumulated `String`.
-/

namespace Fjson2csv

/-- A decoded scalar JSON value, as produced by `encoding/json` into an
`interface{}`: strings, numbers (Go `float64`, modelled as exact
rationals), booleans and `null`.  The default branch of `toString`
renders `null` (and any other type) as the empty string. -/
inductive JValue : Type where
  | jstr  (s : String)
  | jnum  (q : ℚ)
  | jbool (b : Bool)
  | jnull
deriving DecidableEq, Repr

/-- A decoded JSON object: a finite map from field names to values,
represented as an association list (Go `map[string]interface{}`; a Go map
has no duplicate keys, which is a `Nodup` hypothesis where it matters). -/
abbrev Record : Type := List (String × JValue)

/-- The exact truncation toward zero of a rational: the value Go's
`int64(value.(float64))` conversion produces whenever it is representable
in int64 (the bounded conversion itself is `goInt64OfRat` below).
Written with `Nat` division on the numerator's absolute value so that the
rounding direction is explicit. -/
def truncTowardZero (q : ℚ) : Int :=
  if q.num < 0 then -(((q.num.natAbs / q.den : ℕ) : Int))
  else ((q.num.natAbs / q.den : ℕ) : Int)

/-- The smallest int64, `-2^63`. -/
def int64Min : Int := -9223372036854775808

/-- The largest int64, `2^63 - 1`. -/
def int64Max : Int := 9223372036854775807

/-- Go's `int64(value.(float64))` conversion: the truncation toward zero
when that truncation is representable in int64.  When it is not, the Go
specification makes the result implementation-defined (gc on amd64
produces `int64Min` for every overflow, on arm64 the conversion
saturates toward the nearest bound); the model clamps to the nearest
bound.  No theorem below relies on which in-range value an overflow
produces — only on the result being an int64, which holds in every
implementation. -/
def goInt64OfRat (q : ℚ) : Int :=
  if truncTowardZero q < int64Min then int64Min
  else if int64Max < truncTowardZero q then int64Max
  else truncTowardZero q

/-- Base-10 rendering of an integer, as `strconv.FormatInt(i, 10)`:
a minus sign for negative values, then the decimal digits. -/
def intToDecimal (n : Int) : String :=
  if n < 0 then "-" ++ Nat.repr n.natAbs else Nat.repr n.natAbs

/-- `toString` from `fjson2csv.go`: strings pass through, numbers render
as the base-10 form of their int64 conversion (truncation toward zero
while in range), booleans as the literal tokens, and everything else
(only `null` here) as the empty string. -/
def toString : JValue → String
  | .jstr s  => s
  | .jnum q  => intToDecimal (goInt64OfRat q)
  | .jbool b => if b then "true" else "false"
  | .jnull   => ""

/-- The text emitted for one cell: the record's value under `key`
converted by `toString`, or empty text when the field is absent.  This is
the common effect of both branches in `writeRecord` (a present first
value is written, an absent one writes nothing; later columns substitute
`""`, which `toString` passes through unchanged). -/
def cellFor (r : Record) (key : String) : String :=
  match r.lookup key with
  | some v => toString v
  | none   => ""

/-! ## Field frequency table (`converter.Keys`)

Go's `map[string]int64` is modelled as an association list from names to
counts; all observations go through `countOf` (lookup, defaulting to 0,
which is also the zero value a Go map read yields for a missing key). -/

/-- The frequency table. -/
abbrev KeyTable : Type := List (String × Int)

/-- The count stored for `k`, `0` when absent (a Go map read of a missing
key yields the zero value). -/
def countOf (t : KeyTable) (k : String) : Int :=
  match t.lookup k with
  | some n => n
  | none   => 0

/-- One `key` iteration of `extractKeys`' loop body: create the entry at
`0` if missing, then increment it. -/
def bump (t : KeyTable) (k : String) : KeyTable :=
  match t with
  | [] => [(k, 1)]
  | (k', n) :: rest => if k' = k then (k', n + 1) :: rest else (k', n) :: bump rest k

/-- The `extractKeys` callback from `fjson2csv.go`: for every field name
of the record, increment its table entry (creating it at `0` first). -/
def extractKeys (t : KeyTable) (r : Record) : KeyTable :=
  r.foldl (fun acc kv => bump acc kv.1) t

/-- Indexing a whole record sequence: `extractKeys` applied to each
record in turn, starting from the empty table. -/
def indexAll (rs : List Record) : KeyTable :=
  rs.foldl extractKeys []

/-! ## Go string comparison

`converter.Less` compares field names with Go's `>` on `string`, which is
byte-wise lexicographic comparison of the UTF-8 encodings.  UTF-8
preserves code-point order, so this is lexicographic comparison of the
code-point sequences, embedded here structurally (the kernel-reducible
replacement for `String.lt`). -/

/-- Lexicographic strict comparison of code-point sequences. -/
def lexLt : List Char → List Char → Bool
  | [], [] => false
  | [], _ :: _ => true
  | _ :: _, [] => false
  | c :: cs, d :: ds =>
    if c.toNat < d.toNat then true
    else if d.toNat < c.toNat then false
    else lexLt cs ds

/-- Go's `a < b` on strings. -/
def strLt (a b : String) : Prop := lexLt a.data b.data = true

instance (a b : String) : Decidable (strLt a b) := by
  unfold strLt; infer_instance

/-- Go's `a <= b` on strings. -/
def strLe (a b : String) : Prop := a = b ∨ strLt a b

instance (a b : String) : Decidable (strLe a b) := by
  unfold strLe; infer_instance

theorem lexLt_irrefl : ∀ cs : List Char, lexLt cs cs = false
  | [] => rfl
  | c :: cs => by simp [lexLt, lexLt_irrefl cs]

theorem lexLt_trans {as bs cs : List Char} (h1 : lexLt as bs = true)
    (h2 : lexLt bs cs = true) : lexLt as cs = true := by
  induction as generalizing bs cs with
  | nil =>
    cases cs with
    | nil =>
      cases bs with
      | nil => exact absurd h1 (by simp [lexLt])
      | cons b bs => exact absurd h2 (by simp [lexLt])
    | cons c cs => simp [lexLt]
  | cons a as ih =>
    cases bs with
    | nil => exact absurd h1 (by simp [lexLt])
    | cons b bs =>
      cases cs with
      | nil => exact absurd h2 (by simp [lexLt])
      | cons c cs =>
        simp only [lexLt] at h1 h2 ⊢
        split_ifs at h1 h2 ⊢ <;> first
          | rfl
          | omega
          | (exact ih h1 h2)

theorem lexLt_asymm {as bs : List Char} (h : lexLt as bs = true) :
    lexLt bs as = false := by
  cases hba : lexLt bs as with
  | false => rfl
  | true =>
    have h2 := lexLt_trans h hba
    rw [lexLt_irrefl] at h2
    exact absurd h2 (by simp)

theorem lexLt_eq_of_not_lt : ∀ {as bs : List Char},
    lexLt as bs = false → lexLt bs as = false → as = bs
  | [], [], _, _ => rfl
  | [], _ :: _, h1, _ => absurd h1 (by simp [lexLt])
  | _ :: _, [], _, h2 => absurd h2 (by simp [lexLt])
  | a :: as, b :: bs, h1, h2 => by
    simp only [lexLt] at h1 h2
    by_cases hc : a.toNat < b.toNat
    · simp [hc] at h1
    · by_cases hc' : b.toNat < a.toNat
      · simp [hc, hc'] at h2
      · simp [hc, hc'] at h1 h2
        have hab : a = b :=
          Char.ext (UInt32.ext (by unfold Char.toNat at hc hc'; omega))
        rw [hab, lexLt_eq_of_not_lt h1 h2]

theorem strLt_asymm {a b : String} (h : strLt a b) : ¬ strLt b a := by
  unfold strLt at *
  simp [lexLt_asymm h]

theorem strLe_total (a b : String) : strLe a b ∨ strLe b a := by
  unfold strLe strLt
  cases hab : lexLt a.data b.data with
  | true => exact Or.inl (Or.inr rfl)
  | false =>
    cases hba : lexLt b.data a.data with
    | true => exact Or.inr (Or.inr rfl)
    | false =>
      have hd := lexLt_eq_of_not_lt hab hba
      exact Or.inl (Or.inl (String.ext hd))

theorem strLe_trans {a b c : String} (h1 : strLe a b) (h2 : strLe b c) :
    strLe a c := by
  rcases h1 with rfl | h1
  · exact h2
  · rcases h2 with rfl | h2
    · exact Or.inr h1
    · exact Or.inr (lexLt_trans h1 h2)

theorem strLe_antisymm {a b : String} (h1 : strLe a b) (h2 : strLe b a) :
    a = b := by
  rcases h1 with rfl | h1
  · rfl
  · rcases h2 with rfl | h2
    · rfl
    · exact absurd h2 (strLt_asymm h1)

/-! ## Key sorter (`converter.Less` / `sort.Sort`) -/

/-- The non-strict total order realised by `converter.Less`:
`Less(i, j)` is `Keys[sorted[i]] > Keys[sorted[j]]`, with ties broken by
`sorted[j] > sorted[i]` (so the lexicographically smaller name first).
This is its reflexive closure, the order of the sorted result. -/
def keyOrd (t : KeyTable) (a b : String) : Prop :=
  countOf t a > countOf t b ∨ (countOf t a = countOf t b ∧ strLe a b)

instance (t : KeyTable) : DecidableRel (keyOrd t) := fun a b => by
  unfold keyOrd; infer_instance

/-- The strict order of `converter.Less` itself (for distinct names):
greater frequency first, ties broken by the lexicographically smaller
name first. -/
def keyLess (t : KeyTable) (a b : String) : Prop :=
  countOf t a > countOf t b ∨ (countOf t a = countOf t b ∧ strLt a b)

instance (t : KeyTable) : DecidableRel (keyLess t) := fun a b => by
  unfold keyLess; infer_instance

instance keyOrdTotal (t : KeyTable) : IsTotal String (keyOrd t) where
  total a b := by
    unfold keyOrd
    rcases lt_trichotomy (countOf t a) (countOf t b) with h | h | h
    · exact Or.inr (Or.inl h)
    · rcases strLe_total a b with hab | hab
      · exact Or.inl (Or.inr ⟨h, hab⟩)
      · exact Or.inr (Or.inr ⟨h.symm, hab⟩)
    · exact Or.inl (Or.inl h)

instance keyOrdTrans (t : KeyTable) : IsTrans String (keyOrd t) where
  trans a b c hab hbc := by
    unfold keyOrd at *
    rcases hab with h1 | ⟨h1, h1'⟩ <;> rcases hbc with h2 | ⟨h2, h2'⟩
    · exact Or.inl (h2.trans h1)
    · exact Or.inl (h2 ▸ h1)
    · exact Or.inl (h1 ▸ h2)
    · exact Or.inr ⟨h1.trans h2, strLe_trans h1' h2'⟩

instance keyOrdAntisymm (t : KeyTable) : IsAntisymm String (keyOrd t) where
  antisymm a b hab hba := by
    unfold keyOrd at *
    rcases hab with h1 | ⟨h1, h1'⟩
    · rcases hba with h2 | ⟨h2, _⟩
      · exact absurd (h1.trans h2) (lt_irrefl _)
      · exact absurd h2.symm (ne_of_gt h1)
    · rcases hba with h2 | ⟨_, h2'⟩
      · exact absurd h1 (ne_of_lt h2)
      · exact strLe_antisymm h1' h2'

theorem keyLess_asymm {t : KeyTable} {a b : String} (h1 : keyLess t a b)
    (h2 : keyLess t b a) : False := by
  unfold keyLess at *
  rcases h1 with h1 | ⟨h1, h1'⟩ <;> rcases h2 with h2 | ⟨h2, h2'⟩
  · exact absurd (h1.trans h2) (lt_irrefl _)
  · exact absurd h2.symm (ne_of_gt h1)
  · exact absurd h1 (ne_of_lt h2)
  · exact absurd h2' (strLt_asymm h1')

theorem keyOrd_of_keyLess {t : KeyTable} {a b : String} (h : keyLess t a b) :
    keyOrd t a b := by
  unfold keyLess at h; unfold keyOrd
  rcases h with h | ⟨h, h'⟩
  · exact Or.inl h
  · exact Or.inr ⟨h, Or.inr h'⟩

theorem keyLess_of_keyOrd_ne {t : KeyTable} {a b : String}
    (h : keyOrd t a b) (hne : a ≠ b) : keyLess t a b := by
  unfold keyOrd at h; unfold keyLess
  rcases h with h | ⟨h, h'⟩
  · exact Or.inl h
  · rcases h' with rfl | h'
    · exact absurd rfl hne
    · exact Or.inr ⟨h, h'⟩

/-- The key sorter: `sort.Sort` applied to the converter with the `Less`
above.  Since `Less` is a strict total order on the (distinct) map keys,
the sorted permutation is unique, so any correct sort — in particular
insertion sort — computes exactly what `sort.Sort` computes. -/
def sortKeys (t : KeyTable) (ks : List String) : List String :=
  ks.insertionSort (keyOrd t)

/-- Key list of a table, in table order (the model's stand-in for Go's
arbitrary map iteration order in `IndexFields`; determinism over any
enumeration order is proved, not assumed). -/
def keysOf (t : KeyTable) : List String :=
  t.map Prod.fst

/-- `IndexFields`' final `sorted` slice, computed from a table. -/
def sortedOf (t : KeyTable) : List String :=
  sortKeys t (keysOf t)

/-! ## The source, as a decoder trace

`WalkJsonList` observes the byte source only through
`json.NewDecoder(...)`: a first `Token()`, a `More()`/`Decode()` loop, a
closing `Token()`, and finally `Source.Seek(0, 0)`.  A source is
therefore embedded as the trace of those observations. -/

/-- Result of the first `dec.Token()` call. -/
inductive OpenTok : Type where
  /-- The token is the `[` delimiter: a well-formed array opener. -/
  | arrayStart
  /-- `Token()` succeeds but yields something other than the `[` delimiter
  (e.g. the `{` delimiter, or a scalar for a non-array document).  The
  code records a `malformed JSON: document must be an array of objects`
  error but — lacking a `return` in this branch — keeps walking. -/
  | notArray
  /-- `Token()` itself fails (empty input, leading garbage). -/
  | errTok
deriving DecidableEq, Repr

/-- One iteration of the `dec.More()` / `dec.Decode(&record)` loop.  The
trace lists the iterations in which `More()` returned true; it ends when
`More()` would return false. -/
inductive DecStep : Type where
  /-- `Decode` succeeds and the value is a JSON object. -/
  | record (r : Record)
  /-- `Decode` succeeds but the value is not an object: the unchecked
  type assertion `record.(map[string]interface{})` panics. -/
  | nonObj (v : JValue)
  /-- `Decode` fails (syntax error, `not at beginning of value`, ...). -/
  | decodeErr
deriving DecidableEq, Repr

/-- Result of the closing `dec.Token()` call. -/
inductive CloseTok : Type where
  | okTok
  | errTok
deriving DecidableEq, Repr

/-- A byte source, embedded as its `json.Decoder` trace plus whether
`Seek(0, 0)` fails. -/
structure Source : Type where
  openTok   : OpenTok
  steps     : List DecStep
  closeTok  : CloseTok
  seekFails : Bool
deriving DecidableEq, Repr

/-- The well-formed source holding a top-level JSON array of the given
objects, on a seekable byte stream. -/
def wellFormed (rs : List Record) : Source :=
  ⟨.arrayStart, rs.map .record, .okTok, false⟩

/-- The errors `converter.err` can hold (the sink is perfect, so
`errWriter` failures cannot arise in the model). -/
inductive GoError : Type where
  /-- `malformed JSON` (first `Token()` failed). -/
  | malformedJSON
  /-- `malformed JSON: document must be an array of objects`. -/
  | notArrayOfObjects
  /-- An error returned by `dec.Decode` and stored verbatim. -/
  | decodeError
  /-- `malformed JSON: array does not end properly`. -/
  | badArrayEnd
  /-- `file read failure: ...` (the `Seek(0, 0)` rewind failed). -/
  | seekFailure
deriving DecidableEq, Repr

/-- A Go computation that either completes with a value or panics
(failed type assertion / out-of-range index). -/
inductive Outcome (α : Type) : Type where
  | ok (a : α)
  | panicked
deriving DecidableEq, Repr

/-- A walk callback: from callback state and a decoded record to either a
panic or an updated state plus an optional error (the callback's Go
return value). -/
abbrev Callback (σ : Type) : Type := σ → Record → Outcome (σ × Option GoError)

/-- The `for dec.More()` loop of `WalkJsonList`: decode, type-assert
(panicking on a non-object), invoke the callback, abort on its error or a
decode error.  Returns the callback state reached together with the error
recorded in `c.err`, if any. -/
def runSteps (cb : Callback σ) : σ → List DecStep → Outcome (σ × Option GoError)
  | s, [] => .ok (s, none)
  | s, .record r :: rest =>
    match cb s r with
    | .panicked => .panicked
    | .ok (s', none) => runSteps cb s' rest
    | .ok (s', some e) => .ok (s', some e)
  | _, .nonObj _ :: _ => .panicked
  | s, .decodeErr :: _ => .ok (s, some .decodeError)

/-- The loop, closing bracket and rewind of `WalkJsonList` (everything
after the opening token has been read). -/
def walkBody (cb : Callback σ) (s : σ) (src : Source) :
    Outcome (σ × Option GoError) :=
  match runSteps cb s src.steps with
  | .panicked => .panicked
  | .ok (s', some e) => .ok (s', some e)
  | .ok (s', none) =>
    match src.closeTok with
    | .errTok => .ok (s', some .badArrayEnd)
    | .okTok => if src.seekFails then .ok (s', some .seekFailure) else .ok (s', none)

/-- `WalkJsonList` from `fjson2csv.go`.  Note the faithful quirk: when
the first token is not `[`, the error is recorded but the walk continues
(the branch has no `return`), so a later error overwrites it and an
otherwise clean walk surfaces it only at the end. -/
def WalkJsonList (cb : Callback σ) (s : σ) (src : Source) :
    Outcome (σ × Option GoError) :=
  match src.openTok with
  | .errTok => .ok (s, some .malformedJSON)
  | .arrayStart => walkBody cb s src
  | .notArray =>
    match walkBody cb s src with
    | .panicked => .panicked
    | .ok (s', some e) => .ok (s', some e)
    | .ok (s', none) => .ok (s', some .notArrayOfObjects)

/-- The `extractKeys` walk callback (never fails, never panics). -/
def extractKeysCb : Callback KeyTable :=
  fun t r => .ok (extractKeys t r, none)

/-- The `bufferData` walk callback: append the record to the buffer, then
index it. -/
def bufferDataCb : Callback (KeyTable × List Record) :=
  fun s r => .ok ((extractKeys s.1 r, s.2 ++ [r]), none)

/-! ## Emission -/

/-- The header line: `strings.Join(c.sorted, c.delimiter)` plus `"\n"`
(written unconditionally by `BufferedConvert`, and by `WriteCsv` only
after its guards). -/
def headerLine (delim : String) (sorted : List String) : String :=
  String.intercalate delim sorted ++ "\n"

/-- One record's CSV line, the common body of `writeRecord` and of the
textually identical loop inlined in `BufferedConvert`: the first column's
value (nothing when absent), then `delimiter ++ value` for every further
column, then `"\n"`.  Evaluating `record[c.sorted[0]]` with an empty
`sorted` slice is an out-of-range index: a panic. -/
def emitRecord (sorted : List String) (delim : String) (r : Record) :
    Outcome String :=
  match sorted with
  | [] => .panicked
  | k :: ks =>
    .ok (cellFor r k ++ ks.foldl (fun acc k' => acc ++ delim ++ cellFor r k') "" ++ "\n")

/-- The `writeRecord` walk callback, accumulating sink output in its
state (the sink is perfect, so `w.err` stays `nil`). -/
def writeRecordCb (sorted : List String) (delim : String) : Callback String :=
  fun out r =>
    match emitRecord sorted delim r with
    | .panicked => .panicked
    | .ok line => .ok (out ++ line, none)

/-- The record-emitting loop of `BufferedConvert` over the record
buffer. -/
def emitBuffer (sorted : List String) (delim : String) :
    List Record → Outcome String
  | [] => .ok ""
  | r :: rs =>
    match emitRecord sorted delim r with
    | .panicked => .panicked
    | .ok line =>
      match emitBuffer sorted delim rs with
      | .panicked => .panicked
      | .ok rest => .ok (line ++ rest)

/-! ## The two conversion drivers

Each driver returns the bytes that reached the sink together with the
error value the Go function returns (`none` for a `nil` return). -/

/-- The default delimiter `","`. -/
def default_delimiter : String := ","

/-- `UnbufferedConvert`: index (first walk), sort, then `WriteCsv` —
which aborts before writing anything if an error was recorded or the
sorted key list is empty, and otherwise writes the header and runs the
second, emitting walk over the rewound source. -/
def UnbufferedConvert (src : Source) : Outcome (String × Option GoError) :=
  match WalkJsonList extractKeysCb [] src with
  | .panicked => .panicked
  | .ok (t, err1) =>
    let sorted := sortedOf t
    match err1 with
    | some e => .ok ("", some e)
    | none =>
      if sorted = [] then .ok ("", none)
      else
        match WalkJsonList (writeRecordCb sorted default_delimiter) "" src with
        | .panicked => .panicked
        | .ok (out, err2) =>
          .ok (headerLine default_delimiter sorted ++ out, err2)

/-- `BufferedConvert`: a single walk with `bufferData`, then — with no
check of `c.err` and no empty-`sorted` guard — the header is written
unconditionally and the buffered records are emitted; the error recorded
during indexing (if any) is returned at the end. -/
def BufferedConvert (src : Source) : Outcome (String × Option GoError) :=
  match WalkJsonList bufferDataCb ([], []) src with
  | .panicked => .panicked
  | .ok ((t, buf), err1) =>
    let sorted := sortedOf t
    match emitBuffer sorted default_delimiter buf with
    | .panicked => .panicked
    | .ok rows =>
      .ok (headerLine default_delimiter sorted ++ rows, err1)

/-! ## Helper lemmas: the frequency table -/

theorem countOf_nil (k : String) : countOf [] k = 0 := rfl

theorem countOf_cons (k₀ : String) (n : Int) (rest : KeyTable) (k : String) :
    countOf ((k₀, n) :: rest) k = if k = k₀ then n else countOf rest k := by
  by_cases h : k = k₀
  · simp [countOf, List.lookup, h]
  · have hb : (k == k₀) = false := beq_eq_false_iff_ne.mpr h
    simp [countOf, List.lookup, hb, h]

theorem countOf_bump (t : KeyTable) (k k' : String) :
    countOf (bump t k) k' = countOf t k' + (if k' = k then 1 else 0) := by
  induction t with
  | nil =>
    by_cases h : k' = k <;> simp [bump, countOf_cons, countOf_nil, h]
  | cons p rest ih =>
    obtain ⟨k₀, n⟩ := p
    by_cases h0 : k₀ = k
    · subst h0
      rw [bump, if_pos rfl]
      by_cases h : k' = k₀ <;> simp [countOf_cons, h]
    · rw [bump, if_neg h0]
      by_cases h : k' = k₀
      · have hk : ¬ k' = k := fun hh => h0 (h.symm.trans hh)
        have hk0 : ¬ k₀ = k := fun hh => hk (h.trans hh)
        simp [countOf_cons, h, hk, hk0]
      · simp [countOf_cons, h, ih]

theorem countOf_extractKeys (t : KeyTable) (r : Record) (k : String) :
    countOf (extractKeys t r) k =
      countOf t k + ((r.map Prod.fst).count k : Int) := by
  unfold extractKeys
  induction r generalizing t with
  | nil => simp
  | cons kv rest ih =>
    simp only [List.foldl_cons, List.map_cons]
    rw [ih, countOf_bump, List.count_cons]
    by_cases h : k = kv.1
    · simp [h]
      ring
    · have h' : ¬ kv.1 = k := fun hh => h hh.symm
      simp [h, h']

theorem countOf_le_extractKeys (t : KeyTable) (r : Record) (k : String) :
    countOf t k ≤ countOf (extractKeys t r) k := by
  rw [countOf_extractKeys]
  have : (0 : Int) ≤ ((r.map Prod.fst).count k : Int) := Int.natCast_nonneg _
  omega

theorem bump_entries_pos (t : KeyTable) (k : String)
    (h : ∀ p ∈ t, 1 ≤ p.2) : ∀ p ∈ bump t k, 1 ≤ p.2 := by
  induction t with
  | nil =>
    intro p hp
    simp [bump] at hp
    simp [hp]
  | cons q rest ih =>
    obtain ⟨k₀, n⟩ := q
    intro p hp
    rw [bump] at hp
    by_cases h0 : k₀ = k
    · rw [if_pos h0] at hp
      rcases List.mem_cons.mp hp with rfl | hmem
      · have := h (k₀, n) (List.mem_cons_self _ _)
        simp at this ⊢
        omega
      · exact h p (List.mem_cons_of_mem _ hmem)
    · rw [if_neg h0] at hp
      rcases List.mem_cons.mp hp with rfl | hmem
      · exact h (k₀, n) (List.mem_cons_self _ _)
      · exact ih (fun q hq => h q (List.mem_cons_of_mem _ hq)) p hmem

theorem extractKeys_entries_pos (t : KeyTable) (r : Record)
    (h : ∀ p ∈ t, 1 ≤ p.2) : ∀ p ∈ extractKeys t r, 1 ≤ p.2 := by
  unfold extractKeys
  induction r generalizing t with
  | nil => exact h
  | cons kv rest ih => exact ih _ (bump_entries_pos t kv.1 h)

theorem indexAll_entries_pos (rs : List Record) :
    ∀ p ∈ indexAll rs, 1 ≤ p.2 := by
  unfold indexAll
  have : ∀ (t : KeyTable), (∀ p ∈ t, 1 ≤ p.2) →
      ∀ p ∈ rs.foldl extractKeys t, 1 ≤ p.2 := by
    induction rs with
    | nil => intro t ht; exact ht
    | cons r rest ih =>
      intro t ht
      exact ih _ (extractKeys_entries_pos t r ht)
  exact this [] (by simp)

theorem countOf_foldl_extractKeys (rs : List Record) (t : KeyTable) (k : String)
    (h : ∀ r ∈ rs, (r.map Prod.fst).Nodup) :
    countOf (rs.foldl extractKeys t) k =
      countOf t k + ((rs.countP (fun r => decide (k ∈ r.map Prod.fst))) : Int) := by
  induction rs generalizing t with
  | nil => simp
  | cons r rest ih =>
    simp only [List.foldl_cons]
    rw [ih _ (fun r' hr' => h r' (List.mem_cons_of_mem _ hr')),
      countOf_extractKeys, List.countP_cons]
    have hr := h r (List.mem_cons_self _ _)
    by_cases hmem : k ∈ r.map Prod.fst
    · rw [List.count_eq_one_of_mem hr hmem]
      simp [hmem]
      ring
    · rw [List.count_eq_zero_of_not_mem hmem]
      simp [hmem]

/-! ## Helper lemmas: the key sorter -/

theorem sortKeys_perm (t : KeyTable) (ks : List String) : (sortKeys t ks).Perm ks :=
  List.perm_insertionSort _ _

theorem sortKeys_sorted (t : KeyTable) (ks : List String) :
    List.Sorted (keyOrd t) (sortKeys t ks) :=
  List.sorted_insertionSort _ _

/-- The sorted key sequence does not depend on the enumeration order of
the keys (Go map iteration order): any two permutations of the same key
set sort to the same list, because `keyOrd` is total, transitive and
antisymmetric. -/
theorem sortKeys_eq_of_perm (t : KeyTable) {ks ks' : List String}
    (h : ks.Perm ks') : sortKeys t ks = sortKeys t ks' :=
  List.eq_of_perm_of_sorted
    (((sortKeys_perm t ks).trans h).trans (sortKeys_perm t ks').symm)
    (sortKeys_sorted t ks) (sortKeys_sorted t ks')

/-! ## Helper lemmas: walks over well-formed sources -/

theorem runSteps_extractKeys (rs : List Record) (t : KeyTable) :
    runSteps extractKeysCb t (rs.map .record) =
      .ok (rs.foldl extractKeys t, none) := by
  induction rs generalizing t with
  | nil => rfl
  | cons r rest ih => simp [runSteps, extractKeysCb, ih]

theorem runSteps_bufferData (rs : List Record) (t : KeyTable)
    (buf : List Record) :
    runSteps bufferDataCb (t, buf) (rs.map .record) =
      .ok ((rs.foldl extractKeys t, buf ++ rs), none) := by
  induction rs generalizing t buf with
  | nil => simp [runSteps]
  | cons r rest ih => simp [runSteps, bufferDataCb, ih]

/-- The CSV line `writeRecord` produces for one record under a nonempty
column order. -/
def lineOf (k : String) (ks : List String) (delim : String) (r : Record) :
    String :=
  cellFor r k ++ ks.foldl (fun acc k' => acc ++ delim ++ cellFor r k') "" ++ "\n"

theorem emitRecord_cons (k : String) (ks : List String) (delim : String)
    (r : Record) : emitRecord (k :: ks) delim r = .ok (lineOf k ks delim r) :=
  rfl

/-- All CSV lines of a record sequence under a nonempty column order. -/
def rowsOf (k : String) (ks : List String) (delim : String) :
    List Record → String
  | [] => ""
  | r :: rs => lineOf k ks delim r ++ rowsOf k ks delim rs

theorem emitBuffer_eq_rowsOf (k : String) (ks : List String) (delim : String) :
    ∀ rs : List Record, emitBuffer (k :: ks) delim rs = .ok (rowsOf k ks delim rs)
  | [] => rfl
  | r :: rs => by
    simp [emitBuffer, emitRecord_cons, emitBuffer_eq_rowsOf k ks delim rs, rowsOf]

theorem runSteps_writeRecord (k : String) (ks : List String) (delim : String)
    (rs : List Record) (out : String) :
    runSteps (writeRecordCb (k :: ks) delim) out (rs.map .record) =
      .ok (out ++ rowsOf k ks delim rs, none) := by
  induction rs generalizing out with
  | nil => simp [runSteps, rowsOf]
  | cons r rest ih =>
    simp [runSteps, writeRecordCb, emitRecord_cons, ih, rowsOf, String.append_assoc]

theorem WalkJsonList_wellFormed {σ : Type} (cb : Callback σ) (s s' : σ)
    (rs : List Record)
    (h : runSteps cb s (rs.map .record) = .ok (s', none)) :
    WalkJsonList cb s (wellFormed rs) = .ok (s', none) := by
  simp [WalkJsonList, wellFormed, walkBody, h]

theorem WalkJsonList_badSeek {σ : Type} (cb : Callback σ) (s s' : σ)
    (rs : List Record)
    (h : runSteps cb s (rs.map .record) = .ok (s', none)) :
    WalkJsonList cb s ⟨.arrayStart, rs.map .record, .okTok, true⟩ =
      .ok (s', some .seekFailure) := by
  simp [WalkJsonList, walkBody, h]

/-- Functorial action on `Outcome`. -/
def mapOutcome {α β : Type} (f : α → β) : Outcome α → Outcome β
  | .ok a => .ok (f a)
  | .panicked => .panicked

/-! ## Helper lemmas: numeric truncation -/

theorem truncTowardZero_eq_floor {q : ℚ} (h : 0 ≤ q) :
    truncTowardZero q = ⌊q⌋ := by
  unfold truncTowardZero
  have hnum : 0 ≤ q.num := Rat.num_nonneg.mpr h
  rw [if_neg (by omega), Rat.floor_def]
  have h1 : (q.num.natAbs : ℤ) = q.num := Int.natAbs_of_nonneg hnum
  calc ((q.num.natAbs / q.den : ℕ) : ℤ)
      = (q.num.natAbs : ℤ) / (q.den : ℤ) := Int.ofNat_tdiv _ _
    _ = q.num / q.den := by rw [h1]

theorem truncTowardZero_neg (q : ℚ) :
    truncTowardZero (-q) = -truncTowardZero q := by
  unfold truncTowardZero
  have hden : (-q).den = q.den := rfl
  have hnum : (-q).num = -q.num := Rat.num_neg_eq_neg_num q
  rw [hden, hnum]
  rcases lt_trichotomy q.num 0 with h | h | h
  · rw [if_neg (by omega), if_pos h, Int.natAbs_neg]
    omega
  · rw [h]
    simp
  · rw [if_pos (by omega), if_neg (by omega), Int.natAbs_neg]

theorem truncTowardZero_eq_ceil {q : ℚ} (h : q < 0) :
    truncTowardZero q = ⌈q⌉ := by
  have h1 : truncTowardZero q = -truncTowardZero (-q) := by
    rw [truncTowardZero_neg, neg_neg]
  rw [h1, truncTowardZero_eq_floor (by linarith : (0:ℚ) ≤ -q)]
  rw [← Int.ceil_neg, neg_neg]

theorem truncTowardZero_intCast (n : ℤ) : truncTowardZero (n : ℚ) = n := by
  unfold truncTowardZero
  rw [Rat.num_intCast, Rat.den_intCast]
  simp only [Nat.div_one]
  split <;> omega

theorem goInt64OfRat_eq_trunc {q : ℚ} (h1 : int64Min ≤ truncTowardZero q)
    (h2 : truncTowardZero q ≤ int64Max) :
    goInt64OfRat q = truncTowardZero q := by
  unfold goInt64OfRat
  simp only [int64Min, int64Max] at h1 h2
  rw [if_neg (by simp only [int64Min]; omega),
    if_neg (by simp only [int64Max]; omega)]

/-- Whatever the implementation-defined overflow value is, the result of
the conversion is always an int64. -/
theorem goInt64OfRat_bounds (q : ℚ) :
    int64Min ≤ goInt64OfRat q ∧ goInt64OfRat q ≤ int64Max := by
  unfold goInt64OfRat
  split_ifs with h1 h2 <;> simp only [int64Min, int64Max] at * <;> omega

/-! ## Helper lemmas: the decimal rendering contains no decimal point -/

theorem toDigitsCore_ne_dot (fuel n : ℕ) (ds : List Char)
    (h : ∀ c ∈ ds, c ≠ '.') :
    ∀ c ∈ Nat.toDigitsCore 10 fuel n ds, c ≠ '.' := by
  induction fuel generalizing n ds with
  | zero => exact h
  | succ fuel ih =>
    rw [Nat.toDigitsCore]
    have hd : Nat.digitChar (n % 10) ≠ '.' := by
      have hlt : n % 10 < 10 := Nat.mod_lt _ (by omega)
      have hall : ∀ m, m < 10 → Nat.digitChar m ≠ '.' := by decide
      exact hall _ hlt
    have hcons : ∀ c ∈ Nat.digitChar (n % 10) :: ds, c ≠ '.' := by
      intro c hc
      rcases List.mem_cons.mp hc with rfl | hmem
      · exact hd
      · exact h c hmem
    split
    · exact hcons
    · exact ih _ _ hcons

theorem repr_ne_dot (n : ℕ) : ∀ c ∈ (Nat.repr n).data, c ≠ '.' :=
  toDigitsCore_ne_dot (n + 1) n [] (by simp)

/-- The rendering of an integer never contains a decimal point. -/
theorem intToDecimal_no_dot (n : ℤ) : ∀ c ∈ (intToDecimal n).data, c ≠ '.' := by
  unfold intToDecimal
  split
  · intro c hc
    rcases List.mem_append.mp hc with hm | hm
    · simp at hm
      rw [hm]
      decide
    · exact repr_ne_dot _ c hm
  · exact repr_ne_dot _

/-! ## Concrete inputs used by the claims -/

/-- The frequency table of §8's key-sorter fixture:
`{apples:4, angles:4, marbles:12, feelings:1, colors:1}`. -/
def fixtureTable : KeyTable :=
  [("apples", 4), ("angles", 4), ("marbles", 12), ("feelings", 1), ("colors", 1)]

/-- `[{"test":"hello","example":42},{"example":12}]`: well-formed, two
objects. -/
def srcExample : Source :=
  wellFormed [[("test", .jstr "hello"), ("example", .jnum 42)],
    [("example", .jnum 12)]]

/-- `[]`: well-formed, no elements. -/
def srcEmptyArray : Source := wellFormed []

/-- `[{}]`: well-formed, one empty object. -/
def srcEmptyObject : Source := wellFormed [[]]

/-- `{"test":1}]` through `json.Decoder`: the first `Token()` yields the
`{` delimiter (not `[`); `More()` is then true (the next character is a
quote), and `Decode()` fails with a syntax error ("not at beginning of
value") because the decoder is positioned at an object key, a position in
which a `Decode` is not allowed. -/
def srcMissingOpenBracket : Source := ⟨.notArray, [.decodeErr], .okTok, false⟩

/-- `[{"test":1}` through `json.Decoder`: `[`, then the one object
decodes, `More()` is false at end of input, and the closing `Token()`
fails at EOF. -/
def srcMissingCloseBracket : Source :=
  ⟨.arrayStart, [.record [("test", .jnum 1)]], .errTok, false⟩

/-- A non-array top-level document such as `42`: the first `Token()`
yields the number (not a delimiter), `More()` is false, and the closing
`Token()` fails at EOF. -/
def srcNonArrayTop : Source := ⟨.notArray, [], .errTok, false⟩

/-- `[1]`: well-formed array whose element decodes to a number, not an
object. -/
def srcNonObjectElem : Source := ⟨.arrayStart, [.nonObj (.jnum 1)], .okTok, false⟩

/-- Well-formed `[{"test":"x"}]` on a source whose `Seek` always fails
(the repository's own `badSeeker` test double). -/
def srcBadSeek : Source :=
  ⟨.arrayStart, [.record [("test", .jstr "x")]], .okTok, true⟩

/-! ## Claim theorems -/

/-- C2: for the input `[{"test":"hello","example":42},{"example":12}]`
with delimiter `,`, both conversion modes produce exactly
`"example,test\n42,hello\n12,\n"`: a header of the column order, one line
per record in input order, absent fields emitted as empty cells. -/
theorem C2_example_conversion :
    UnbufferedConvert srcExample =
      .ok ("example,test\n42,hello\n12,\n", none) ∧
    BufferedConvert srcExample =
      .ok ("example,test\n42,hello\n12,\n", none) := by
  decide

/-- C3 (evaluation at the failing inputs): the claim says both modes
write zero bytes for `[]` and `[{}]`.  Streaming mode does; buffered mode
writes a lone newline for `[]` (the unguarded header write) and panics
for `[{}]` (`record[c.sorted[0]]` indexes the empty `sorted` slice). -/
theorem C3_empty_column_order_eval :
    UnbufferedConvert srcEmptyArray = .ok ("", none) ∧
    UnbufferedConvert srcEmptyObject = .ok ("", none) ∧
    BufferedConvert srcEmptyArray = .ok ("\n", none) ∧
    BufferedConvert srcEmptyObject = .panicked := by
  decide

/-- C4 (evaluation at the failing inputs): the claim says both modes
return a `MalformedInput` error and write zero bytes for `{"test":1}]`,
`[{"test":1}` and a non-array top level.  Streaming mode does; buffered
mode returns the errors but writes partial output first: a lone newline
for the first and third inputs, and the full `"test\n1\n"` for the
missing-close-bracket input. -/
theorem C4_malformed_input_eval :
    UnbufferedConvert srcMissingOpenBracket =
      .ok ("", some .decodeError) ∧
    UnbufferedConvert srcMissingCloseBracket =
      .ok ("", some .badArrayEnd) ∧
    UnbufferedConvert srcNonArrayTop = .ok ("", some .badArrayEnd) ∧
    BufferedConvert srcMissingOpenBracket =
      .ok ("\n", some .decodeError) ∧
    BufferedConvert srcMissingCloseBracket =
      .ok ("test\n1\n", some .badArrayEnd) ∧
    BufferedConvert srcNonArrayTop = .ok ("\n", some .badArrayEnd) := by
  decide

/-- C7 (evaluation at the failing input): for `[1]` the claim says the
walk surfaces a decode error or `MalformedInput`; instead the unchecked
type assertion `record.(map[string]interface{})` panics, in the walk and
in both drivers. -/
theorem C7_non_object_element_panics :
    WalkJsonList extractKeysCb [] srcNonObjectElem = .panicked ∧
    UnbufferedConvert srcNonObjectElem = .panicked ∧
    BufferedConvert srcNonObjectElem = .panicked := by
  decide

/-- C1 (counterexample): on the empty array `[]` the two modes do not
write byte-identical output — streaming writes zero bytes while buffered
writes a lone newline. -/
theorem C1_counterexample_empty_array :
    UnbufferedConvert srcEmptyArray = .ok ("", none) ∧
    BufferedConvert srcEmptyArray = .ok ("\n", none) ∧
    UnbufferedConvert srcEmptyArray ≠ BufferedConvert srcEmptyArray := by
  decide

/-- C8 (counterexample): buffered conversion of well-formed
`[{"test":"x"}]` on a source whose `Seek` fails does not succeed: it
writes the complete output but returns the rewind failure as an error,
because `WalkJsonList` unconditionally seeks and `BufferedConvert`
returns the recorded error. -/
theorem C8_counterexample_seek_failure :
    BufferedConvert srcBadSeek =
      .ok ("test\nx\n", some GoError.seekFailure) := by
  decide

/-- C5 (counterexample): in the column order computed for §8's fixture
table, `angles` precedes `apples` although their counts are equal and
`angles` is not lexicographically greater than `apples` — the tie-break
is ascending, not descending as the claim states. -/
theorem C5_counterexample_tie_order :
    sortKeys fixtureTable (keysOf fixtureTable) =
      ["marbles", "angles", "apples", "colors", "feelings"] ∧
    countOf fixtureTable "angles" = countOf fixtureTable "apples" ∧
    ¬ strLt "apples" "angles" ∧ "angles" ≠ "apples" := by
  decide

/-- C6: for the literal table `{apples:4, angles:4, marbles:12,
feelings:1, colors:1}` the key sorter produces exactly
`[marbles, angles, apples, colors, feelings]`, whatever enumeration order
the map iteration feeds it — repeated computation always yields this same
sequence. -/
theorem C6_key_sorter_fixture (ks : List String)
    (h : ks.Perm ["apples", "angles", "marbles", "feelings", "colors"]) :
    sortKeys fixtureTable ks =
      ["marbles", "angles", "apples", "colors", "feelings"] := by
  rw [sortKeys_eq_of_perm fixtureTable h]
  decide

theorem C6_key_sorter_fixture_witness :
    sortKeys fixtureTable
        ["apples", "angles", "marbles", "feelings", "colors"] =
      ["marbles", "angles", "apples", "colors", "feelings"] :=
  C6_key_sorter_fixture _ (List.Perm.refl _)

/-- C5 (amended): in any computed Column Order, for two distinct
positions, the earlier name relates to the later one by `converter.Less`:
A precedes B iff count(A) > count(B), or the counts are equal and A < B
lexicographically (descending frequency, ties broken by *ascending*
alphabetical order). -/
theorem C5_column_order_invariant (t : KeyTable) (ks : List String)
    (hnd : ks.Nodup) (i j : ℕ) (hi : i < (sortKeys t ks).length)
    (hj : j < (sortKeys t ks).length) (hne : i ≠ j) :
    i < j ↔
      keyLess t ((sortKeys t ks).get ⟨i, hi⟩) ((sortKeys t ks).get ⟨j, hj⟩) := by
  have hnd' : (sortKeys t ks).Nodup := ((sortKeys_perm t ks).nodup_iff).mpr hnd
  have hsorted := sortKeys_sorted t ks
  have hgetne :
      (sortKeys t ks).get ⟨i, hi⟩ ≠ (sortKeys t ks).get ⟨j, hj⟩ := by
    intro hcontra
    have heq := (List.Nodup.get_inj_iff hnd').mp hcontra
    exact hne (by simpa using heq)
  constructor
  · intro hij
    have hord := hsorted.rel_get_of_lt
      (a := ⟨i, hi⟩) (b := ⟨j, hj⟩) (by exact hij)
    exact keyLess_of_keyOrd_ne hord hgetne
  · intro hless
    rcases Nat.lt_trichotomy i j with hlt | heq | hgt
    · exact hlt
    · exact absurd heq hne
    · have hord := hsorted.rel_get_of_lt
        (a := ⟨j, hj⟩) (b := ⟨i, hi⟩) (by exact hgt)
      exact (keyLess_asymm hless (keyLess_of_keyOrd_ne hord hgetne.symm)).elim

theorem C5_column_order_invariant_witness :
    0 < 1 ↔ keyLess [("a", (1 : Int)), ("b", 2)]
      ((sortKeys [("a", 1), ("b", 2)] ["a", "b"]).get ⟨0, by decide⟩)
      ((sortKeys [("a", 1), ("b", 2)] ["a", "b"]).get ⟨1, by decide⟩) :=
  C5_column_order_invariant [("a", 1), ("b", 2)] ["a", "b"] (by decide) 0 1
    (by decide) (by decide) (by decide)

/-- C10: after indexing any record sequence, the table maps each field
name to the number of records containing it (each record, being a map
with distinct keys, contributes at most 1 per field); every stored count
is at least 1; and no count is ever decremented — `extractKeys` is
monotone on every count. -/
theorem C10_frequency_table_invariants (rs : List Record) (k : String)
    (hnd : ∀ r ∈ rs, (r.map Prod.fst).Nodup) :
    countOf (indexAll rs) k =
      ((rs.countP (fun r => decide (k ∈ r.map Prod.fst))) : Int) ∧
    (∀ p ∈ indexAll rs, 1 ≤ p.2) ∧
    (∀ (t : KeyTable) (r : Record) (k2 : String),
      countOf t k2 ≤ countOf (extractKeys t r) k2) := by
  refine ⟨?_, indexAll_entries_pos rs,
    fun t r k2 => countOf_le_extractKeys t r k2⟩
  have h := countOf_foldl_extractKeys rs [] k hnd
  rw [indexAll, h, countOf_nil]
  ring

theorem C10_frequency_table_invariants_witness :
    countOf (indexAll [[("a", .jnull)], [("a", .jstr "x"), ("b", .jbool true)]])
      "a" = 2 := by
  have h := C10_frequency_table_invariants
    [[("a", .jnull)], [("a", .jstr "x"), ("b", .jbool true)]] "a" (by decide)
  rw [h.1]
  decide

/-- C9 (counterexample): the original claim — every JSON number renders
as its base-10 truncation toward zero — fails at `1e20` (an exactly
representable float64, so a legitimate JSON number): its truncation,
`10^20`, exceeds `int64Max`, the bounded `int64` conversion cannot
return it, and the rendered text is not the truncation's decimal form. -/
theorem C9_counterexample_overflow :
    truncTowardZero (100000000000000000000 : ℚ) = 100000000000000000000 ∧
    int64Max < 100000000000000000000 ∧
    goInt64OfRat (100000000000000000000 : ℚ) ≠
      truncTowardZero (100000000000000000000 : ℚ) ∧
    Fjson2csv.toString (.jnum (100000000000000000000 : ℚ)) ≠
      intToDecimal (truncTowardZero (100000000000000000000 : ℚ)) := by
  decide

/-- C9 (amended): value-to-text conversion — strings pass through
unchanged; a JSON number whose truncation toward zero is representable
in int64 renders as the base-10 form of that truncation (floor for
nonnegative, ceiling for negative — truncated, never rounded), and an
in-range integer-valued number renders as the plain integer; a number
whose truncation overflows int64 renders as some implementation-defined
int64 value instead (the conversion's result always lies in the int64
range), never the true truncation; the numeric rendering never contains
a decimal point; booleans render as the literal tokens `true`/`false`;
null and absent values render as empty text. -/
theorem C9_value_to_text :
    (∀ s : String, Fjson2csv.toString (.jstr s) = s) ∧
    (∀ q : ℚ, int64Min ≤ truncTowardZero q → truncTowardZero q ≤ int64Max →
      Fjson2csv.toString (.jnum q) = intToDecimal (truncTowardZero q)) ∧
    (∀ q : ℚ, 0 ≤ q → truncTowardZero q = ⌊q⌋) ∧
    (∀ q : ℚ, q < 0 → truncTowardZero q = ⌈q⌉) ∧
    (∀ n : ℤ, int64Min ≤ n → n ≤ int64Max →
      Fjson2csv.toString (.jnum (n : ℚ)) = intToDecimal n) ∧
    (∀ q : ℚ, int64Min ≤ goInt64OfRat q ∧ goInt64OfRat q ≤ int64Max) ∧
    (∀ q : ℚ, ∀ c ∈ (Fjson2csv.toString (.jnum q)).data, c ≠ '.') ∧
    (Fjson2csv.toString (.jbool true) = "true" ∧
      Fjson2csv.toString (.jbool false) = "false") ∧
    (Fjson2csv.toString .jnull = "" ∧
      ∀ (r : Record) (k : String), r.lookup k = none → cellFor r k = "") := by
  refine ⟨fun s => rfl,
    fun q h1 h2 => by
      show intToDecimal (goInt64OfRat q) = intToDecimal (truncTowardZero q)
      rw [goInt64OfRat_eq_trunc h1 h2],
    fun q h => truncTowardZero_eq_floor h,
    fun q h => truncTowardZero_eq_ceil h,
    fun n h1 h2 => by
      show intToDecimal (goInt64OfRat (n : ℚ)) = intToDecimal n
      rw [goInt64OfRat_eq_trunc (q := (n : ℚ))
          (by rw [truncTowardZero_intCast]; exact h1)
          (by rw [truncTowardZero_intCast]; exact h2),
        truncTowardZero_intCast],
    fun q => goInt64OfRat_bounds q,
    fun q => intToDecimal_no_dot _,
    ⟨rfl, rfl⟩,
    ⟨rfl, fun r k h => by simp [cellFor, h]⟩⟩

theorem C9_value_to_text_witness :
    truncTowardZero (mkRat 37 10) = 3 ∧
    truncTowardZero (mkRat (-37) 10) = -3 ∧
    Fjson2csv.toString (.jnum (mkRat 37 10)) = "3" ∧
    Fjson2csv.toString (.jstr "hello") = "hello" := by
  refine ⟨?_, ?_, ?_, C9_value_to_text.1 "hello"⟩
  · rw [C9_value_to_text.2.2.1 (mkRat 37 10) (by decide)]
    decide
  · rw [C9_value_to_text.2.2.2.1 (mkRat (-37) 10) (by decide)]
    decide
  · rw [C9_value_to_text.2.1 (mkRat 37 10) (by decide) (by decide)]
    decide

/-- C1 (amended): for every well-formed input whose computed Column
Order is nonempty, the streaming and buffered conversions write
byte-identical output (and return the same result); for an empty Column
Order the modes differ, as the counterexample shows. -/
theorem C1_mode_equivalence_nonempty (rs : List Record)
    (h : sortedOf (indexAll rs) ≠ []) :
    UnbufferedConvert (wellFormed rs) = BufferedConvert (wellFormed rs) := by
  obtain ⟨k, ks, hk⟩ : ∃ k ks, sortedOf (indexAll rs) = k :: ks := by
    cases hs : sortedOf (indexAll rs) with
    | nil => exact absurd hs h
    | cons k ks => exact ⟨k, ks, rfl⟩
  have hw1 := WalkJsonList_wellFormed extractKeysCb [] (indexAll rs) rs
    (runSteps_extractKeys rs [])
  have hw2 := WalkJsonList_wellFormed bufferDataCb ([], [])
    (indexAll rs, rs) rs (by simpa using runSteps_bufferData rs [] [])
  have hw3 := WalkJsonList_wellFormed
    (writeRecordCb (k :: ks) default_delimiter) ""
    ("" ++ rowsOf k ks default_delimiter rs) rs
    (runSteps_writeRecord k ks default_delimiter rs "")
  unfold UnbufferedConvert BufferedConvert
  rw [hw1, hw2]
  simp only [hk]
  rw [if_neg (by simp), hw3, emitBuffer_eq_rowsOf]
  simp

theorem C1_mode_equivalence_nonempty_witness :
    UnbufferedConvert (wellFormed [[("test", .jstr "x")]]) =
      BufferedConvert (wellFormed [[("test", .jstr "x")]]) :=
  C1_mode_equivalence_nonempty [[("test", .jstr "x")]] (by decide)

/-- C8 (amended): buffered conversion parses the source exactly once and
emits from the record buffer — its output does not depend on whether the
source can be repositioned — but `WalkJsonList` still seeks after the
indexing pass, and a failing `Seek` makes the conversion return a
`SourceFailure` error even though the complete output was written. -/
theorem C8_buffered_emits_from_buffer (rs : List Record) :
    BufferedConvert ⟨.arrayStart, rs.map .record, .okTok, true⟩ =
      mapOutcome (fun p => (p.1, some GoError.seekFailure))
        (BufferedConvert (wellFormed rs)) := by
  unfold BufferedConvert
  rw [WalkJsonList_badSeek bufferDataCb ([], []) (indexAll rs, rs) rs
      (by simpa using runSteps_bufferData rs [] []),
    WalkJsonList_wellFormed bufferDataCb ([], []) (indexAll rs, rs) rs
      (by simpa using runSteps_bufferData rs [] [])]
  cases hemit : emitBuffer (sortedOf (indexAll rs)) default_delimiter rs <;>
    simp [mapOutcome, hemit]

theorem C8_buffered_emits_from_buffer_witness :
    BufferedConvert ⟨.arrayStart, [.record [("test", .jstr "x")]], .okTok, true⟩ =
      mapOutcome (fun p => (p.1, some GoError.seekFailure))
        (BufferedConvert (wellFormed [[("test", .jstr "x")]])) :=
  C8_buffered_emits_from_buffer [[("test", .jstr "x")]]

end Fjson2csv
